import Mathlib

/-!
Verification development for the cog chat client.

The Go sources are shallowly embedded: the data model
(src/internal/models/conversation.go), the SQLite-backed store
(src/internal/storage/database.go) and the session controller
(src/internal/ui, the Update state machine) become executable Lean
definitions, and the specification's claims are settled as theorems
about those definitions.  Strings that are manipulated rune-wise in Go
are represented as List Char, so one element corresponds to one rune.
Wall-clock instants (time.Now, time.Time) are represented as natural
numbers.
-/

namespace Cog

/-- A chat message, from src/internal/models/conversation.go: Role is the
string "user" or "assistant", Content the text, Time the send time. -/
structure Message where
  Role : String
  Content : List Char
  Time : Nat
deriving DecidableEq, Repr

/-- A conversation, from src/internal/models/conversation.go: an id, a
display name, the ordered message list and the creation time. -/
structure Conversation where
  ID : String
  Name : List Char
  Messages : List Message
  Created : Nat
deriving DecidableEq, Repr

/-- Conversation.Description from src/internal/models/conversation.go:
the sidebar preview line, which is the fixed text for an empty
conversation and otherwise the last message's content, truncated at 50
runes to its first 47 runes plus an ellipsis. -/
def Conversation.Description (c : Conversation) : List Char :=
  match c.Messages.getLast? with
  | none => "New conversation".data
  | some lastMsg =>
    let preview := lastMsg.Content
    if preview.length > 50 then preview.take 47 ++ "...".data else preview

/-! ## The persistent store (src/internal/storage/database.go)

The SQLite database is modelled relationally: a list of conversation
rows and a list of message rows, each list kept in table (rowid) order,
plus the AUTOINCREMENT counter for message ids.  SQL ORDER BY is a
stable sort on the scan order. -/

/-- A row of the conversations table: id, name, created_at, updated_at. -/
structure ConvRow where
  id : String
  name : List Char
  created_at : Nat
  updated_at : Nat
deriving DecidableEq, Repr

/-- A row of the messages table: the AUTOINCREMENT id, the foreign key
conversation_id, and role, content, created_at. -/
structure MsgRow where
  mid : Nat
  conversation_id : String
  role : String
  content : List Char
  created_at : Nat
deriving DecidableEq, Repr

/-- The state of the SQLite database behind storage.Database: both
tables in insertion (rowid) order and the next AUTOINCREMENT value for
the messages table. -/
structure Store where
  convRows : List ConvRow
  msgRows : List MsgRow
  nextMsgId : Nat
deriving DecidableEq, Repr

/-- The message rows produced by the INSERT loop of SaveConversation:
one row per message of the conversation, in list order, with
consecutive AUTOINCREMENT ids starting at base. -/
def msgRowsFor (cid : String) (base : Nat) : List Message → List MsgRow
  | [] => []
  | msg :: rest =>
    ⟨base, cid, msg.Role, msg.Content, msg.Time⟩ :: msgRowsFor cid (base + 1) rest

/-- Database.SaveConversation from src/internal/storage/database.go: in
one transaction, INSERT OR REPLACE the conversation row (the REPLACE
removes a conflicting row and the fresh insert lands at the end of the
scan order), DELETE all message rows of this conversation, then INSERT
the current message list; updated_at is set to the current time. -/
def Store.SaveConversation (s : Store) (conv : Conversation) (now : Nat) : Store :=
  { convRows :=
      s.convRows.filter (fun r => decide (r.id ≠ conv.ID))
        ++ [⟨conv.ID, conv.Name, conv.Created, now⟩]
    msgRows :=
      s.msgRows.filter (fun r => decide (r.conversation_id ≠ conv.ID))
        ++ msgRowsFor conv.ID s.nextMsgId conv.Messages
    nextMsgId := s.nextMsgId + conv.Messages.length }

/-- Database.DeleteConversation from src/internal/storage/database.go:
DELETE FROM conversations WHERE id = ?.  The schema declares FOREIGN
KEY (conversation_id) REFERENCES conversations (id) ON DELETE CASCADE
on the messages table, but the connection is opened with
sql.Open("sqlite", dbPath) through modernc.org/sqlite with a bare file
path and no PRAGMA foreign_keys is ever issued, so foreign-key
enforcement stays at the SQLite per-connection default of off and the
cascade never fires: only the conversation row is removed and the
message rows of the conversation are left in place. -/
def Store.DeleteConversation (s : Store) (conversationID : String) : Store :=
  { convRows := s.convRows.filter (fun r => decide (r.id ≠ conversationID))
    msgRows := s.msgRows
    nextMsgId := s.nextMsgId }

/-- Stable insertion of an element into a list sorted by a Nat key: the
element is placed before the first position whose key is not smaller,
so elements with equal keys keep their relative order. -/
def orderedInsertKey (key : α → Nat) (x : α) : List α → List α
  | [] => [x]
  | y :: ys => if key x ≤ key y then x :: y :: ys else y :: orderedInsertKey key x ys

/-- Stable sort by a Nat key, modelling SQL ORDER BY key ASC over the
scan order of a table. -/
def sortByKey (key : α → Nat) : List α → List α
  | [] => []
  | x :: xs => orderedInsertKey key x (sortByKey key xs)

/-- The projection Scan performs in loadMessages: a message row yields a
Message from its role, content and created_at columns. -/
def rowToMessage (r : MsgRow) : Message :=
  ⟨r.role, r.content, r.created_at⟩

/-- Database.loadMessages from src/internal/storage/database.go: SELECT
role, content, created_at FROM messages WHERE conversation_id = ?
ORDER BY created_at ASC, scanned into Messages. -/
def Store.loadMessages (s : Store) (conversationID : String) : List Message :=
  (sortByKey (fun r => r.created_at)
      (s.msgRows.filter (fun r => decide (r.conversation_id = conversationID)))).map
    rowToMessage

/-- Database.LoadConversations from src/internal/storage/database.go:
SELECT id, name, created_at, updated_at FROM conversations ORDER BY
created_at ASC; each scanned row becomes a Conversation (updated_at is
scanned and discarded) whose messages are fetched by loadMessages. -/
def Store.LoadConversations (s : Store) : List Conversation :=
  (sortByKey (fun r => r.created_at) s.convRows).map
    (fun r => ⟨r.id, r.name, s.loadMessages r.id, r.created_at⟩)

/-! ## Sorting lemmas -/

theorem mem_orderedInsertKey (key : α → Nat) (x a : α) (l : List α) :
    a ∈ orderedInsertKey key x l ↔ a = x ∨ a ∈ l := by
  induction l with
  | nil => simp [orderedInsertKey]
  | cons y ys ih =>
    rw [orderedInsertKey]
    by_cases h : key x ≤ key y
    · simp [if_pos h]
    · simp only [if_neg h, List.mem_cons, ih]
      tauto

theorem orderedInsertKey_pairwise (key : α → Nat) (x : α) (l : List α)
    (h : List.Pairwise (fun a b => key a ≤ key b) l) :
    List.Pairwise (fun a b => key a ≤ key b) (orderedInsertKey key x l) := by
  induction l with
  | nil => simp [orderedInsertKey]
  | cons y ys ih =>
    rw [orderedInsertKey]
    rcases List.pairwise_cons.mp h with ⟨hy, hys⟩
    by_cases hxy : key x ≤ key y
    · simp only [if_pos hxy]
      refine List.pairwise_cons.mpr ⟨?_, h⟩
      intro a ha
      rcases List.mem_cons.mp ha with rfl | ha
      · exact hxy
      · exact le_trans hxy (hy a ha)
    · simp only [if_neg hxy]
      refine List.pairwise_cons.mpr ⟨?_, ih hys⟩
      intro a ha
      rcases (mem_orderedInsertKey key x a ys).mp ha with rfl | hmem
      · exact Nat.le_of_not_le hxy
      · exact hy a hmem

theorem sortByKey_pairwise (key : α → Nat) (l : List α) :
    List.Pairwise (fun a b => key a ≤ key b) (sortByKey key l) := by
  induction l with
  | nil => simp [sortByKey]
  | cons x xs ih => exact orderedInsertKey_pairwise key x _ ih

theorem sortByKey_eq_self (key : α → Nat) (l : List α)
    (h : List.Pairwise (fun a b => key a ≤ key b) l) :
    sortByKey key l = l := by
  induction l with
  | nil => rfl
  | cons x xs ih =>
    rcases List.pairwise_cons.mp h with ⟨hx, hxs⟩
    rw [sortByKey, ih hxs]
    cases xs with
    | nil => rfl
    | cons y ys =>
      rw [orderedInsertKey, if_pos (hx y (by simp))]

theorem mem_sortByKey (key : α → Nat) (a : α) (l : List α) :
    a ∈ sortByKey key l ↔ a ∈ l := by
  induction l with
  | nil => simp [sortByKey]
  | cons x xs ih =>
    rw [sortByKey, mem_orderedInsertKey]
    simp [ih]

theorem orderedInsertKey_map (key₁ : α → Nat) (key₂ : β → Nat) (f : α → β)
    (hkey : ∀ a, key₂ (f a) = key₁ a) (x : α) (l : List α) :
    orderedInsertKey key₂ (f x) (l.map f) = (orderedInsertKey key₁ x l).map f := by
  induction l with
  | nil => rfl
  | cons y ys ih =>
    simp only [List.map_cons, orderedInsertKey, hkey]
    by_cases h : key₁ x ≤ key₁ y
    · simp [if_pos h]
    · simp [if_neg h, ih]

theorem sortByKey_map (key₁ : α → Nat) (key₂ : β → Nat) (f : α → β)
    (hkey : ∀ a, key₂ (f a) = key₁ a) (l : List α) :
    sortByKey key₂ (l.map f) = (sortByKey key₁ l).map f := by
  induction l with
  | nil => rfl
  | cons x xs ih =>
    simp only [List.map_cons, sortByKey, ih]
    exact orderedInsertKey_map key₁ key₂ f hkey x _

/-! ## Store lemmas -/

theorem msgRowsFor_map (cid : String) (base : Nat) (msgs : List Message) :
    (msgRowsFor cid base msgs).map rowToMessage = msgs := by
  induction msgs generalizing base with
  | nil => rfl
  | cons m rest ih => simp [msgRowsFor, rowToMessage, ih]

theorem msgRowsFor_filter_self (cid : String) (base : Nat) (msgs : List Message) :
    (msgRowsFor cid base msgs).filter (fun r => decide (r.conversation_id = cid))
      = msgRowsFor cid base msgs := by
  induction msgs generalizing base with
  | nil => rfl
  | cons m rest ih => simp [msgRowsFor, List.filter, ih]

theorem msgRowsFor_filter_ne (cid cid' : String) (hne : cid' ≠ cid) (base : Nat)
    (msgs : List Message) :
    (msgRowsFor cid base msgs).filter (fun r => decide (r.conversation_id = cid')) = [] := by
  induction msgs generalizing base with
  | nil => rfl
  | cons m rest ih => simp [msgRowsFor, List.filter, Ne.symm hne, ih]

theorem msgRowsFor_conversation_id (cid : String) (base : Nat) (msgs : List Message) :
    ∀ r ∈ msgRowsFor cid base msgs, r.conversation_id = cid := by
  induction msgs generalizing base with
  | nil => intro r hr; cases hr
  | cons m rest ih =>
    intro r hr
    rcases List.mem_cons.mp hr with rfl | hr
    · rfl
    · exact ih (base + 1) r hr

theorem msgRowsFor_filter_out (cid : String) (base : Nat) (msgs : List Message) :
    (msgRowsFor cid base msgs).filter (fun r => decide (r.conversation_id ≠ cid)) = [] := by
  apply List.filter_eq_nil_iff.mpr
  intro r hr
  simp [msgRowsFor_conversation_id cid base msgs r hr]

theorem filter_ne_idem (p : α → Bool) (l : List α) :
    (l.filter p).filter p = l.filter p := by
  rw [List.filter_filter]
  simp

theorem loadMessages_eq_sort (s : Store) (cid : String) :
    s.loadMessages cid
      = sortByKey (fun m => m.Time)
          ((s.msgRows.filter (fun r => decide (r.conversation_id = cid))).map rowToMessage) := by
  rw [Store.loadMessages,
    sortByKey_map (fun r => r.created_at) (fun m => m.Time) rowToMessage (fun _ => rfl)]

theorem loadMessages_save_save (s : Store) (c : Conversation) (t₁ t₂ : Nat) (cid : String) :
    ((s.SaveConversation c t₁).SaveConversation c t₂).loadMessages cid
      = (s.SaveConversation c t₁).loadMessages cid := by
  rw [loadMessages_eq_sort, loadMessages_eq_sort]
  congr 1
  simp only [Store.SaveConversation, List.filter_append, msgRowsFor_filter_out,
    filter_ne_idem, List.append_nil, List.map_append]
  by_cases hcid : cid = c.ID
  · subst hcid
    rw [msgRowsFor_filter_self, msgRowsFor_filter_self, msgRowsFor_map, msgRowsFor_map]
  · rw [msgRowsFor_filter_ne c.ID cid hcid, msgRowsFor_filter_ne c.ID cid hcid]

theorem filter_ne_of_save (c : Conversation) (l : List MsgRow) :
    (l.filter (fun r => decide (r.conversation_id ≠ c.ID))).filter
        (fun r => decide (r.conversation_id = c.ID)) = [] := by
  rw [List.filter_filter]
  apply List.filter_eq_nil_iff.mpr
  intro a _
  by_cases h : a.conversation_id = c.ID <;> simp [h]

theorem LoadConversations_eq_sort (s : Store) :
    s.LoadConversations
      = sortByKey (fun conv : Conversation => conv.Created)
          (s.convRows.map
            (fun r => (⟨r.id, r.name, s.loadMessages r.id, r.created_at⟩ : Conversation))) := by
  rw [Store.LoadConversations]
  exact (sortByKey_map (fun r : ConvRow => r.created_at)
    (fun conv : Conversation => conv.Created) _ (fun _ => rfl) _).symm

/-- C6: save is idempotent — saving the same conversation twice yields a
store that loads identically to saving it once; after a save there is
exactly one conversation row for the saved id and the message rows for
that id project back to exactly the saved message list (no duplicated
message rows). -/
theorem claim_C6_save_idempotent (s : Store) (c : Conversation) (t₁ t₂ : Nat) :
    ((s.SaveConversation c t₁).SaveConversation c t₂).LoadConversations
        = (s.SaveConversation c t₁).LoadConversations
      ∧ (s.SaveConversation c t₁).convRows.countP (fun r => decide (r.id = c.ID)) = 1
      ∧ ((s.SaveConversation c t₁).msgRows.filter
            (fun r => decide (r.conversation_id = c.ID))).map rowToMessage = c.Messages := by
  refine ⟨?_, ?_, ?_⟩
  · have hload : ∀ cid, ((s.SaveConversation c t₁).SaveConversation c t₂).loadMessages cid
        = (s.SaveConversation c t₁).loadMessages cid :=
      loadMessages_save_save s c t₁ t₂
    rw [LoadConversations_eq_sort, LoadConversations_eq_sort]
    simp only [hload]
    congr 1
    simp only [Store.SaveConversation, List.filter_append, filter_ne_idem,
      List.map_append, List.filter]
    simp
  · simp only [Store.SaveConversation, List.countP_append]
    have h1 : (s.convRows.filter (fun r => decide (r.id ≠ c.ID))).countP
        (fun r => decide (r.id = c.ID)) = 0 := by
      apply List.countP_eq_zero.mpr
      intro a ha
      have := List.of_mem_filter ha
      simp only [decide_eq_true_eq] at this ⊢
      exact this
    rw [h1]
    simp [List.countP_cons]
  · simp only [Store.SaveConversation, List.filter_append]
    rw [filter_ne_of_save c s.msgRows, msgRowsFor_filter_self]
    simp [msgRowsFor_map]

/-- C7: round-trip — for a conversation whose messages are in
chronological order, a reload after save reproduces the exact ordered
message list and the saved conversation appears intact in
LoadConversations; moreover LoadConversations always returns
conversations sorted by creation time ascending, each with messages
sorted by send time ascending. -/
theorem claim_C7_roundtrip (s : Store) (c : Conversation) (now : Nat)
    (hchrono : List.Pairwise (fun a b => a.Time ≤ b.Time) c.Messages) :
    (s.SaveConversation c now).loadMessages c.ID = c.Messages
      ∧ (⟨c.ID, c.Name, c.Messages, c.Created⟩ : Conversation)
          ∈ (s.SaveConversation c now).LoadConversations
      ∧ ∀ s' : Store,
          List.Pairwise (fun a b => a.Created ≤ b.Created) s'.LoadConversations
            ∧ ∀ conv ∈ s'.LoadConversations,
                List.Pairwise (fun a b => a.Time ≤ b.Time) conv.Messages := by
  have hload : (s.SaveConversation c now).loadMessages c.ID = c.Messages := by
    rw [loadMessages_eq_sort]
    simp only [Store.SaveConversation, List.filter_append]
    rw [filter_ne_of_save c s.msgRows, msgRowsFor_filter_self]
    simp only [List.nil_append, msgRowsFor_map]
    exact sortByKey_eq_self _ _ hchrono
  refine ⟨hload, ?_, ?_⟩
  · rw [Store.LoadConversations]
    apply List.mem_map.mpr
    refine ⟨⟨c.ID, c.Name, c.Created, now⟩, ?_, ?_⟩
    · apply (mem_sortByKey _ _ _).mpr
      simp [Store.SaveConversation]
    · simp [hload]
  · intro s'
    constructor
    · rw [LoadConversations_eq_sort]
      exact sortByKey_pairwise _ _
    · intro conv hconv
      rw [Store.LoadConversations] at hconv
      rcases List.mem_map.mp hconv with ⟨r, _, rfl⟩
      rw [loadMessages_eq_sort]
      exact sortByKey_pairwise _ _

/-- C2: the code bug demonstrated at the failing input — save a
conversation conv_1 holding one message into an empty store, then
DeleteConversation conv_1: the conversation row is gone, yet because
foreign-key enforcement is never enabled the message row for conv_1
survives as an orphan, contradicting the no-orphans contract the schema
declares with ON DELETE CASCADE; deleting an id absent from the store
still changes nothing and returns no error. -/
theorem claim_C2_delete_orphans :
    (((⟨[], [], 0⟩ : Store).SaveConversation
          ⟨"conv_1", "hi".data, [⟨"user", "hi".data, 1⟩], 1⟩ 2).DeleteConversation
        "conv_1").convRows = []
      ∧ (((⟨[], [], 0⟩ : Store).SaveConversation
            ⟨"conv_1", "hi".data, [⟨"user", "hi".data, 1⟩], 1⟩ 2).DeleteConversation
          "conv_1").msgRows = [⟨0, "conv_1", "user", "hi".data, 1⟩]
      ∧ (∃ r ∈ (((⟨[], [], 0⟩ : Store).SaveConversation
            ⟨"conv_1", "hi".data, [⟨"user", "hi".data, 1⟩], 1⟩ 2).DeleteConversation
          "conv_1").msgRows,
          r.conversation_id = "conv_1")
      ∧ ((⟨[⟨"conv_1", "hi".data, 1, 2⟩], [⟨0, "conv_1", "user", "hi".data, 1⟩], 1⟩ : Store)
            |>.DeleteConversation "conv_9")
          = ⟨[⟨"conv_1", "hi".data, 1, 2⟩], [⟨0, "conv_1", "user", "hi".data, 1⟩], 1⟩ :=
  ⟨by decide, by decide, ⟨⟨0, "conv_1", "user", "hi".data, 1⟩, by decide, by decide⟩,
    by decide⟩

/-- Witness for C7 at a concrete conversation with two chronologically
ordered messages saved into an empty store. -/
theorem claim_C7_roundtrip_witness :
    ((⟨[], [], 0⟩ : Store).SaveConversation
          ⟨"conv_3", "hey".data, [⟨"user", "hey".data, 3⟩, ⟨"assistant", "yo".data, 4⟩], 3⟩
          9).loadMessages "conv_3"
        = [⟨"user", "hey".data, 3⟩, ⟨"assistant", "yo".data, 4⟩]
      ∧ (⟨"conv_3", "hey".data,
            [⟨"user", "hey".data, 3⟩, ⟨"assistant", "yo".data, 4⟩], 3⟩ : Conversation)
          ∈ ((⟨[], [], 0⟩ : Store).SaveConversation
              ⟨"conv_3", "hey".data,
                [⟨"user", "hey".data, 3⟩, ⟨"assistant", "yo".data, 4⟩], 3⟩ 9).LoadConversations := by
  have h := claim_C7_roundtrip (⟨[], [], 0⟩ : Store)
    ⟨"conv_3", "hey".data, [⟨"user", "hey".data, 3⟩, ⟨"assistant", "yo".data, 4⟩], 3⟩
    9 (by decide)
  exact ⟨h.1, h.2.1⟩

/-! ## The session controller (src/internal/ui, mirrored by src/main.go)

The bubbletea Model is embedded as a record of the fields the claims
depend on; the textarea is abstracted to its string value and the
conversation list to the id supplied with a sidebar selection.  The
wall clock passed to Update stands for the time.Now calls made while
handling one event. -/

/-- Go's unicode.IsSpace: the White_Space code points, written out. -/
def isSpace (ch : Char) : Bool :=
  ch.val == 9 || ch.val == 10 || ch.val == 11 || ch.val == 12 || ch.val == 13
    || ch.val == 32 || ch.val == 0x85 || ch.val == 0xA0 || ch.val == 0x1680
    || (0x2000 ≤ ch.val && ch.val ≤ 0x200A)
    || ch.val == 0x2028 || ch.val == 0x2029 || ch.val == 0x202F
    || ch.val == 0x205F || ch.val == 0x3000

/-- Go's strings.TrimSpace on a rune sequence: drop White_Space runes
from both ends. -/
def trimSpace (s : List Char) : List Char :=
  ((s.dropWhile isSpace).reverse.dropWhile isSpace).reverse

/-- The title derivation inlined in Model.Update: the first message's
content, cut to its first 27 runes plus an ellipsis when longer than 30
runes. -/
def truncateTitle (title : List Char) : List Char :=
  if title.length > 30 then title.take 27 ++ "...".data else title

/-- GenerateConvID from src/internal/ui: the string conv_ followed by
the current Unix time in seconds. -/
def GenerateConvID (now : Nat) : String :=
  "conv_" ++ toString now

/-- NewConversation from src/internal/ui: a fresh conversation with a
generated id, the given title, no messages and the current time. -/
def NewConversation (title : List Char) (now : Nat) : Conversation :=
  ⟨GenerateConvID now, title, [], now⟩

/-- FocusState from src/internal/ui. -/
inductive FocusState where
  | FocusSidebar
  | FocusChat
deriving DecidableEq, Repr

/-- ResponseMsg from src/internal/ui: the completion text and an
optional error, with no conversation identifier. -/
structure ResponseMsg where
  Content : List Char
  Err : Option (List Char)
deriving DecidableEq, Repr

/-- The session-relevant fields of the ui Model: the conversation
registry, the active conversation id, the pending-request flag, the
last error, the textarea value and the focus mode. -/
structure Model where
  conversations : List Conversation
  currentConvID : String
  loading : Bool
  err : Option (List Char)
  textValue : List Char
  focus : FocusState
deriving DecidableEq, Repr

/-- The input and response events Model.Update handles that touch
session state.  keyEnter carries the id the conversation list has
highlighted, standing for convList.SelectedItem; editInput stands for
the textarea edits that set its value. -/
inductive Event where
  | keyTab
  | keyCtrlN
  | keyEnter (selected : Option String)
  | editInput (s : List Char)
  | response (r : ResponseMsg)
deriving DecidableEq, Repr

/-- The user-message append loop of Model.Update: walk the registry,
and at the first conversation whose id matches, append the message and,
if it is now the only message, derive the conversation name from its
content; the loop breaks there. -/
def appendUserMsg : List Conversation → String → Message → List Conversation
  | [], _, _ => []
  | c :: rest, cid, msg =>
    if c.ID = cid then
      { c with
        Messages := c.Messages ++ [msg]
        Name := if (c.Messages ++ [msg]).length = 1 then truncateTitle msg.Content
                else c.Name } :: rest
    else c :: appendUserMsg rest cid msg

/-- The assistant-message append loop of the ResponseMsg case of
Model.Update: append to the first conversation whose id matches and
break; no title is derived here. -/
def appendAssistantMsg : List Conversation → String → Message → List Conversation
  | [], _, _ => []
  | c :: rest, cid, msg =>
    if c.ID = cid then { c with Messages := c.Messages ++ [msg] } :: rest
    else c :: appendAssistantMsg rest cid msg

/-- Model.Update from src/internal/ui, restricted to session state: the
returned option is the content handed to sendMessage when a completion
request is dispatched, and none otherwise. -/
def Model.Update (m : Model) (ev : Event) (now : Nat) : Model × Option (List Char) :=
  match ev with
  | .keyTab =>
    if m.focus = .FocusSidebar then ({ m with focus := .FocusChat }, none)
    else ({ m with focus := .FocusSidebar }, none)
  | .keyCtrlN =>
    let newConv := NewConversation "New Chat".data now
    ({ m with
        conversations := m.conversations ++ [newConv]
        currentConvID := newConv.ID
        focus := .FocusChat }, none)
  | .keyEnter selected =>
    if m.focus = .FocusSidebar then
      match selected with
      | some selectedID =>
        ({ m with currentConvID := selectedID, focus := .FocusChat }, none)
      | none => (m, none)
    else if m.loading = false ∧ trimSpace m.textValue ≠ [] then
      let userMsg : Message := ⟨"user", trimSpace m.textValue, now⟩
      ({ m with
          conversations := appendUserMsg m.conversations m.currentConvID userMsg
          loading := true
          textValue := [] }, some userMsg.Content)
    else
      ({ m with textValue := m.textValue ++ ['\n'] }, none)
  | .editInput s =>
    if m.focus = .FocusChat then ({ m with textValue := s }, none) else (m, none)
  | .response r =>
    match r.Err with
    | some e => ({ m with loading := false, err := some e }, none)
    | none =>
      let assistantMsg : Message := ⟨"assistant", r.Content, now⟩
      ({ m with
          loading := false
          conversations := appendAssistantMsg m.conversations m.currentConvID assistantMsg },
        none)

/-- The fresh-start session state NewModel builds when the store holds
no conversations: one conversation named New Chat, active, nothing
pending, chat focused and an empty input. -/
def initModel (t : Nat) : Model :=
  { conversations := [NewConversation "New Chat".data t]
    currentConvID := GenerateConvID t
    loading := false
    err := none
    textValue := []
    focus := .FocusChat }

/-- The session states reachable from a fresh start by Update steps. -/
inductive Reachable : Model → Prop where
  | init (t : Nat) : Reachable (initModel t)
  | step (m : Model) (ev : Event) (now : Nat) :
      Reachable m → Reachable (m.Update ev now).1

/-- The error block of updateViewport: when an error is held it is
rendered once and the field is cleared, so the next render shows
nothing. -/
def renderErrorOnce (m : Model) : Option (List Char) × Model :=
  match m.err with
  | some e => (some ("Error: ".data ++ e), { m with err := none })
  | none => (none, m)

/-- One choice of a chat-completion response, reduced to the message
content Model.sendMessage reads from it. -/
structure ChatChoice where
  content : List Char
deriving DecidableEq, Repr

/-- A chat-completion response: its list of choices. -/
structure ChatResponse where
  choices : List ChatChoice
deriving DecidableEq, Repr

/-- The result handling of Model.sendMessage: a transport error becomes
an error ResponseMsg, an empty choice list becomes the fixed error, and
otherwise the first choice's content is returned. -/
def sendMessageResult (resp : Except (List Char) ChatResponse) : ResponseMsg :=
  match resp with
  | .error e => ⟨[], some e⟩
  | .ok r =>
    match r.choices with
    | [] => ⟨[], some "no response from API".data⟩
    | choice :: _ => ⟨choice.content, none⟩

/-! ## Lemmas about trimming and the append loops -/

theorem dropWhile_idem (p : α → Bool) (l : List α) :
    (l.dropWhile p).dropWhile p = l.dropWhile p := by
  induction l with
  | nil => rfl
  | cons x xs ih =>
    rw [List.dropWhile_cons]
    by_cases h : p x
    · simp only [if_pos h, ih]
    · simp [List.dropWhile_cons, h]

theorem head?_dropWhile_false (p : α → Bool) (l : List α) :
    ∀ x, (l.dropWhile p).head? = some x → p x = false := by
  induction l with
  | nil => intro x hx; cases hx
  | cons y ys ih =>
    intro x hx
    rw [List.dropWhile_cons] at hx
    by_cases h : p y
    · exact ih x (by simpa [h] using hx)
    · rw [if_neg h] at hx
      cases hx
      simpa using h

theorem dropWhile_eq_self_of_head (p : α → Bool) (l : List α)
    (h : ∀ x, l.head? = some x → p x = false) : l.dropWhile p = l := by
  cases l with
  | nil => rfl
  | cons x xs =>
    rw [List.dropWhile_cons, if_neg]
    simp [h x rfl]

theorem getLast?_of_suffix (l₁ l₂ : List α) (h : l₂ <:+ l₁) (hne : l₂ ≠ []) :
    l₂.getLast? = l₁.getLast? := by
  rcases h with ⟨pre, rfl⟩
  rw [List.getLast?_append]
  cases h2 : l₂.getLast? with
  | none => exact absurd (List.getLast?_eq_none_iff.mp h2) hne
  | some a => rfl

theorem trimSpace_idem (s : List Char) : trimSpace (trimSpace s) = trimSpace s := by
  rw [trimSpace, trimSpace]
  have hA : ∀ x, ((s.dropWhile isSpace).reverse.dropWhile isSpace).reverse.head? = some x →
      isSpace x = false := by
    intro x hx
    rw [List.head?_reverse] at hx
    by_cases hB : (s.dropWhile isSpace).reverse.dropWhile isSpace = []
    · rw [hB] at hx; cases hx
    · have hsuff : (s.dropWhile isSpace).reverse.dropWhile isSpace <:+
          (s.dropWhile isSpace).reverse := List.dropWhile_suffix isSpace
      rw [getLast?_of_suffix _ _ hsuff hB, List.getLast?_reverse] at hx
      exact head?_dropWhile_false isSpace s x hx
  rw [dropWhile_eq_self_of_head isSpace _ hA, List.reverse_reverse, dropWhile_idem]

theorem appendUserMsg_length (cs : List Conversation) (cid : String) (msg : Message) :
    (appendUserMsg cs cid msg).length = cs.length := by
  induction cs with
  | nil => rfl
  | cons c rest ih =>
    rw [appendUserMsg]
    by_cases h : c.ID = cid
    · simp [if_pos h]
    · simp [if_neg h, ih]

theorem appendAssistantMsg_length (cs : List Conversation) (cid : String) (msg : Message) :
    (appendAssistantMsg cs cid msg).length = cs.length := by
  induction cs with
  | nil => rfl
  | cons c rest ih =>
    rw [appendAssistantMsg]
    by_cases h : c.ID = cid
    · simp [if_pos h]
    · simp [if_neg h, ih]

theorem mem_appendUserMsg (cs : List Conversation) (cid : String) (msg : Message) :
    ∀ c' ∈ appendUserMsg cs cid msg,
      c' ∈ cs ∨ ∃ c ∈ cs, c'.Messages = c.Messages ++ [msg] := by
  induction cs with
  | nil => intro c' h; cases h
  | cons c rest ih =>
    intro c' h
    rw [appendUserMsg] at h
    by_cases hc : c.ID = cid
    · rw [if_pos hc] at h
      rcases List.mem_cons.mp h with rfl | h
      · exact Or.inr ⟨c, by simp⟩
      · exact Or.inl (List.mem_cons_of_mem _ h)
    · rw [if_neg hc] at h
      rcases List.mem_cons.mp h with rfl | h
      · exact Or.inl (by simp)
      · rcases ih c' h with h1 | ⟨c₀, hc₀, hm⟩
        · exact Or.inl (List.mem_cons_of_mem _ h1)
        · exact Or.inr ⟨c₀, List.mem_cons_of_mem _ hc₀, hm⟩

theorem mem_appendAssistantMsg (cs : List Conversation) (cid : String) (msg : Message) :
    ∀ c' ∈ appendAssistantMsg cs cid msg,
      c' ∈ cs ∨ ∃ c ∈ cs, c'.Messages = c.Messages ++ [msg] := by
  induction cs with
  | nil => intro c' h; cases h
  | cons c rest ih =>
    intro c' h
    rw [appendAssistantMsg] at h
    by_cases hc : c.ID = cid
    · rw [if_pos hc] at h
      rcases List.mem_cons.mp h with rfl | h
      · exact Or.inr ⟨c, by simp⟩
      · exact Or.inl (List.mem_cons_of_mem _ h)
    · rw [if_neg hc] at h
      rcases List.mem_cons.mp h with rfl | h
      · exact Or.inl (by simp)
      · rcases ih c' h with h1 | ⟨c₀, hc₀, hm⟩
        · exact Or.inl (List.mem_cons_of_mem _ h1)
        · exact Or.inr ⟨c₀, List.mem_cons_of_mem _ hc₀, hm⟩

theorem appendAssistantMsg_getElem_ne (cs : List Conversation) (cid : String) (msg : Message)
    (i : Nat) (c : Conversation) (hget : cs[i]? = some c) (hne : c.ID ≠ cid) :
    (appendAssistantMsg cs cid msg)[i]? = some c := by
  induction cs generalizing i with
  | nil => cases hget
  | cons c₀ rest ih =>
    rw [appendAssistantMsg]
    by_cases hc : c₀.ID = cid
    · rw [if_pos hc]
      cases i with
      | zero =>
        simp only [List.getElem?_cons_zero, Option.some.injEq] at hget
        exact absurd (hget ▸ hc) hne
      | succ n => simpa using hget
    · rw [if_neg hc]
      cases i with
      | zero => simpa using hget
      | succ n =>
        simp only [List.getElem?_cons_succ] at hget ⊢
        exact ih n hget

theorem appendAssistantMsg_getElem_eq (cs : List Conversation) (cid : String) (msg : Message)
    (i : Nat) (c : Conversation) (hget : cs[i]? = some c) (heq : c.ID = cid)
    (hfirst : ∀ j, j < i → ∀ c', cs[j]? = some c' → c'.ID ≠ cid) :
    (appendAssistantMsg cs cid msg)[i]? = some { c with Messages := c.Messages ++ [msg] } := by
  induction cs generalizing i with
  | nil => cases hget
  | cons c₀ rest ih =>
    rw [appendAssistantMsg]
    cases i with
    | zero =>
      simp only [List.getElem?_cons_zero, Option.some.injEq] at hget
      subst hget
      rw [if_pos heq]
      simp
    | succ n =>
      have hc₀ : c₀.ID ≠ cid := hfirst 0 (Nat.succ_pos n) c₀ (by simp)
      rw [if_neg hc₀]
      simp only [List.getElem?_cons_succ] at hget ⊢
      exact ih n hget
        (fun j hj c' hc' => hfirst (j + 1) (Nat.succ_lt_succ hj) c' (by simpa using hc'))

theorem appendUserMsg_getElem_nonempty (cs : List Conversation) (cid : String) (msg : Message)
    (i : Nat) (c c' : Conversation) (hget : cs[i]? = some c)
    (hget' : (appendUserMsg cs cid msg)[i]? = some c') (hne : c.Messages ≠ []) :
    c'.Name = c.Name := by
  induction cs generalizing i with
  | nil => cases hget
  | cons c₀ rest ih =>
    rw [appendUserMsg] at hget'
    by_cases hc : c₀.ID = cid
    · rw [if_pos hc] at hget'
      cases i with
      | zero =>
        simp only [List.getElem?_cons_zero, Option.some.injEq] at hget hget'
        subst hget
        rw [← hget']
        have hlen : (c₀.Messages ++ [msg]).length ≠ 1 := by
          cases hm : c₀.Messages with
          | nil => exact absurd hm hne
          | cons a as => simp
        simp only [if_neg hlen]
      | succ n =>
        simp only [List.getElem?_cons_succ] at hget hget'
        rw [hget] at hget'
        cases hget'
        rfl
    · rw [if_neg hc] at hget'
      cases i with
      | zero =>
        simp only [List.getElem?_cons_zero, Option.some.injEq] at hget hget'
        rw [hget] at hget'
        cases hget'
        rfl
      | succ n =>
        simp only [List.getElem?_cons_succ] at hget hget'
        exact ih n hget hget'

theorem appendUserMsg_getElem_empty (cs : List Conversation) (cid : String) (msg : Message)
    (i : Nat) (c : Conversation) (hget : cs[i]? = some c) (hempty : c.Messages = []) :
    (appendUserMsg cs cid msg)[i]? = some c
      ∨ (appendUserMsg cs cid msg)[i]?
          = some { c with Messages := [msg], Name := truncateTitle msg.Content } := by
  induction cs generalizing i with
  | nil => cases hget
  | cons c₀ rest ih =>
    rw [appendUserMsg]
    by_cases hc : c₀.ID = cid
    · rw [if_pos hc]
      cases i with
      | zero =>
        simp only [List.getElem?_cons_zero, Option.some.injEq] at hget
        subst hget
        right
        simp [hempty]
      | succ n =>
        left
        simpa using hget
    · rw [if_neg hc]
      cases i with
      | zero =>
        left
        simpa using hget
      | succ n =>
        simp only [List.getElem?_cons_succ] at hget ⊢
        exact ih n hget

theorem appendAssistantMsg_name (cs : List Conversation) (cid : String) (msg : Message)
    (i : Nat) (c c' : Conversation) (hget : cs[i]? = some c)
    (hget' : (appendAssistantMsg cs cid msg)[i]? = some c') :
    c'.Name = c.Name := by
  induction cs generalizing i with
  | nil => cases hget
  | cons c₀ rest ih =>
    rw [appendAssistantMsg] at hget'
    by_cases hc : c₀.ID = cid
    · rw [if_pos hc] at hget'
      cases i with
      | zero =>
        simp only [List.getElem?_cons_zero, Option.some.injEq] at hget hget'
        subst hget
        subst hget'
        rfl
      | succ n =>
        simp only [List.getElem?_cons_succ] at hget hget'
        rw [hget] at hget'
        cases hget'
        rfl
    · rw [if_neg hc] at hget'
      cases i with
      | zero =>
        simp only [List.getElem?_cons_zero, Option.some.injEq] at hget hget'
        rw [hget] at hget'
        cases hget'
        rfl
      | succ n =>
        simp only [List.getElem?_cons_succ] at hget hget'
        exact ih n hget hget'

/-! ## Claims about the session controller -/

/-- C4: a submit keystroke arriving while a request is pending is
ignored — the registry is unchanged, the pending flag stays set and no
new request is dispatched (the keystroke only falls through to the
textarea), so a second outstanding request is never produced. -/
theorem claim_C4_submit_while_loading (m : Model) (sel : Option String) (now : Nat)
    (hload : m.loading = true) (hfocus : m.focus = .FocusChat) :
    (m.Update (.keyEnter sel) now).1.conversations = m.conversations
      ∧ (m.Update (.keyEnter sel) now).1.loading = true
      ∧ (m.Update (.keyEnter sel) now).2 = none
      ∧ m.Update (.keyEnter sel) now = ({ m with textValue := m.textValue ++ ['\n'] }, none) := by
  have hupd : m.Update (.keyEnter sel) now
      = ({ m with textValue := m.textValue ++ ['\n'] }, none) := by
    simp only [Model.Update]
    rw [if_neg (by rw [hfocus]; intro h; cases h)]
    rw [if_neg (by rw [hload]; intro h; cases h.1)]
  exact ⟨by rw [hupd], by rw [hupd]; exact hload, by rw [hupd], hupd⟩

/-- Witness for C4: while a request is pending in chat focus, Enter
leaves the one-conversation registry unchanged and returns no command. -/
theorem claim_C4_submit_while_loading_witness :
    (((⟨[⟨"conv_1", "hi".data, [⟨"user", "hi".data, 1⟩], 1⟩], "conv_1", true, none,
          "more".data, .FocusChat⟩ : Model).Update (.keyEnter none) 2).1.conversations
        = [⟨"conv_1", "hi".data, [⟨"user", "hi".data, 1⟩], 1⟩])
      ∧ ((⟨[⟨"conv_1", "hi".data, [⟨"user", "hi".data, 1⟩], 1⟩], "conv_1", true, none,
          "more".data, .FocusChat⟩ : Model).Update (.keyEnter none) 2).2 = none := by
  have h := claim_C4_submit_while_loading
    ⟨[⟨"conv_1", "hi".data, [⟨"user", "hi".data, 1⟩], 1⟩], "conv_1", true, none,
      "more".data, .FocusChat⟩ none 2 rfl rfl
  exact ⟨h.1, h.2.2.1⟩

/-- C9: the sidebar description is the fixed text for an empty
conversation; otherwise it is the last message's content unchanged when
that content is at most 50 runes, and its first 47 runes followed by an
ellipsis when longer. -/
theorem claim_C9_description (c : Conversation) :
    (c.Messages = [] → c.Description = "New conversation".data)
      ∧ ∀ (ms : List Message) (lastMsg : Message), c.Messages = ms ++ [lastMsg] →
          (lastMsg.Content.length ≤ 50 → c.Description = lastMsg.Content)
            ∧ (lastMsg.Content.length > 50 →
                c.Description = lastMsg.Content.take 47 ++ "...".data) := by
  constructor
  · intro hempty
    rw [Conversation.Description, hempty]
    rfl
  · intro ms lastMsg hlast
    have hget : c.Messages.getLast? = some lastMsg := by
      rw [hlast]; exact List.getLast?_concat ms
    constructor
    · intro hle
      rw [Conversation.Description, hget]
      simp only [if_neg (Nat.not_lt.mpr hle)]
    · intro hgt
      rw [Conversation.Description, hget]
      simp only [if_pos hgt]

/-- Witness for C9 at three concrete conversations: empty, short last
message, and a last message of 60 runes. -/
theorem claim_C9_description_witness :
    (⟨"conv_1", "n".data, [], 0⟩ : Conversation).Description = "New conversation".data
      ∧ (⟨"conv_1", "n".data, [⟨"user", "ok".data, 1⟩], 0⟩ : Conversation).Description
          = "ok".data
      ∧ (⟨"conv_1", "n".data,
            [⟨"user", (List.replicate 60 'a'), 1⟩], 0⟩ : Conversation).Description
          = List.replicate 47 'a' ++ "...".data := by
  refine ⟨(claim_C9_description ⟨"conv_1", "n".data, [], 0⟩).1 rfl, ?_, ?_⟩
  · exact ((claim_C9_description ⟨"conv_1", "n".data, [⟨"user", "ok".data, 1⟩], 0⟩).2
      [] ⟨"user", "ok".data, 1⟩ rfl).1 (by decide)
  · have h := ((claim_C9_description
        ⟨"conv_1", "n".data, [⟨"user", (List.replicate 60 'a'), 1⟩], 0⟩).2
      [] ⟨"user", (List.replicate 60 'a'), 1⟩ rfl).2 (by decide)
    rw [h]
    decide

/-- C8: a transport error or an empty choice list yields a ResponseMsg
carrying an error; handling it clears the pending flag, records the
error, appends nothing to any conversation and dispatches nothing; the
recorded error is rendered exactly once — the render clears it, so a
second render shows no error. -/
theorem claim_C8_provider_failure :
    (∀ e : List Char, sendMessageResult (.error e) = ⟨[], some e⟩)
      ∧ (∀ resp : ChatResponse, resp.choices = [] →
          sendMessageResult (.ok resp) = ⟨[], some "no response from API".data⟩)
      ∧ (∀ (m : Model) (content e : List Char) (now : Nat),
          m.Update (.response ⟨content, some e⟩) now
            = ({ m with loading := false, err := some e }, none))
      ∧ ∀ (m : Model) (e : List Char), m.err = some e →
          (renderErrorOnce m).1 = some ("Error: ".data ++ e)
            ∧ (renderErrorOnce (renderErrorOnce m).2).1 = none := by
  refine ⟨fun e => rfl, ?_, fun m content e now => rfl, ?_⟩
  · intro resp hresp
    rw [sendMessageResult, hresp]
  · intro m e herr
    rw [renderErrorOnce, herr]
    exact ⟨rfl, rfl⟩

/-- Witness for C8: the empty-choices response becomes the fixed error,
handling it appends no message, and the error renders once then never
again. -/
theorem claim_C8_provider_failure_witness :
    sendMessageResult (.ok ⟨[]⟩) = ⟨[], some "no response from API".data⟩
      ∧ ((⟨[⟨"conv_1", "hi".data, [⟨"user", "hi".data, 1⟩], 1⟩], "conv_1", true, none,
            [], .FocusChat⟩ : Model).Update
          (.response ⟨[], some "no response from API".data⟩) 2).1.conversations
          = [⟨"conv_1", "hi".data, [⟨"user", "hi".data, 1⟩], 1⟩]
      ∧ (renderErrorOnce
          ((⟨[⟨"conv_1", "hi".data, [⟨"user", "hi".data, 1⟩], 1⟩], "conv_1", true, none,
              [], .FocusChat⟩ : Model).Update
            (.response ⟨[], some "no response from API".data⟩) 2).1).1
          = some ("Error: no response from API".data)
      ∧ (renderErrorOnce (renderErrorOnce
          ((⟨[⟨"conv_1", "hi".data, [⟨"user", "hi".data, 1⟩], 1⟩], "conv_1", true, none,
              [], .FocusChat⟩ : Model).Update
            (.response ⟨[], some "no response from API".data⟩) 2).1).2).1
          = none := by
  have h1 := claim_C8_provider_failure.2.1 ⟨[]⟩ rfl
  have h2 := claim_C8_provider_failure.2.2.1
    ⟨[⟨"conv_1", "hi".data, [⟨"user", "hi".data, 1⟩], 1⟩], "conv_1", true, none,
      [], .FocusChat⟩ [] "no response from API".data 2
  have h3 := claim_C8_provider_failure.2.2.2
    (((⟨[⟨"conv_1", "hi".data, [⟨"user", "hi".data, 1⟩], 1⟩], "conv_1", true, none,
        [], .FocusChat⟩ : Model).Update
      (.response ⟨[], some "no response from API".data⟩) 2).1)
    ("no response from API".data) (by rw [h2])
  refine ⟨h1, by rw [h2], ?_, h3.2⟩
  rw [h3.1]
  decide

/-- C1 counterexample: a request is dispatched while conv_0 is active
(the submit step returns the command carrying the submitted content),
the user then creates and switches to conv_2, and the arriving response
is appended to conv_2 — the conversation active at arrival — while
conv_0, for which the request was dispatched, does not receive it. -/
theorem claim_C1_counterexample :
    ((((initModel 0).Update (.editInput "hi".data) 0).1.Update (.keyEnter none) 1).2
        = some "hi".data)
      ∧ ((((initModel 0).Update (.editInput "hi".data) 0).1.Update
          (.keyEnter none) 1).1.currentConvID = "conv_0")
      ∧ ((((((initModel 0).Update (.editInput "hi".data) 0).1.Update
              (.keyEnter none) 1).1.Update .keyCtrlN 2).1.Update
              (.response ⟨"hello".data, none⟩) 3).1.conversations.map
            (fun c => (c.ID, c.Messages)))
          = [("conv_0", [⟨"user", "hi".data, 1⟩]),
             ("conv_2", [⟨"assistant", "hello".data, 3⟩])] :=
  ⟨by decide, by decide, by decide⟩

/-- C1 amended: ResponseMsg carries no conversation tag, so a
successful response is appended to the first conversation whose id is
currentConvID at arrival time — the conversation the user has switched
to — and every conversation with a different id, including the one the
request was dispatched for, is left unchanged. -/
theorem claim_C1_amended (m : Model) (r : ResponseMsg) (now : Nat) (hok : r.Err = none) :
    (m.Update (.response r) now).1.loading = false
      ∧ (m.Update (.response r) now).1.conversations
          = appendAssistantMsg m.conversations m.currentConvID ⟨"assistant", r.Content, now⟩
      ∧ (∀ (i : Nat) (c : Conversation), m.conversations[i]? = some c →
          c.ID ≠ m.currentConvID →
          (m.Update (.response r) now).1.conversations[i]? = some c)
      ∧ ∀ (i : Nat) (c : Conversation), m.conversations[i]? = some c →
          c.ID = m.currentConvID →
          (∀ j, j < i → ∀ c' : Conversation,
            m.conversations[j]? = some c' → c'.ID ≠ m.currentConvID) →
          (m.Update (.response r) now).1.conversations[i]?
            = some { c with Messages := c.Messages ++ [⟨"assistant", r.Content, now⟩] } := by
  obtain ⟨content, err⟩ := r
  simp only at hok
  subst hok
  refine ⟨rfl, rfl, ?_, ?_⟩
  · intro i c hget hne
    exact appendAssistantMsg_getElem_ne m.conversations m.currentConvID _ i c hget hne
  · intro i c hget heq hfirst
    exact appendAssistantMsg_getElem_eq m.conversations m.currentConvID _ i c hget heq hfirst

/-- Witness for C1 amended: with conv_b active at arrival, the response
lands in conv_b and conv_a is untouched. -/
theorem claim_C1_amended_witness :
    ((⟨[⟨"conv_a", "A".data, [⟨"user", "hi".data, 1⟩], 0⟩, ⟨"conv_b", "B".data, [], 2⟩],
          "conv_b", true, none, [], .FocusChat⟩ : Model).Update
        (.response ⟨"hello".data, none⟩) 3).1.conversations[0]?
        = some ⟨"conv_a", "A".data, [⟨"user", "hi".data, 1⟩], 0⟩
      ∧ ((⟨[⟨"conv_a", "A".data, [⟨"user", "hi".data, 1⟩], 0⟩, ⟨"conv_b", "B".data, [], 2⟩],
            "conv_b", true, none, [], .FocusChat⟩ : Model).Update
          (.response ⟨"hello".data, none⟩) 3).1.conversations[1]?
          = some ⟨"conv_b", "B".data, [⟨"assistant", "hello".data, 3⟩], 2⟩ := by
  constructor
  · exact (claim_C1_amended
      ⟨[⟨"conv_a", "A".data, [⟨"user", "hi".data, 1⟩], 0⟩, ⟨"conv_b", "B".data, [], 2⟩],
        "conv_b", true, none, [], .FocusChat⟩ ⟨"hello".data, none⟩ 3 rfl).2.2.1 0
      ⟨"conv_a", "A".data, [⟨"user", "hi".data, 1⟩], 0⟩ (by decide) (by decide)
  · have h := (claim_C1_amended
      ⟨[⟨"conv_a", "A".data, [⟨"user", "hi".data, 1⟩], 0⟩, ⟨"conv_b", "B".data, [], 2⟩],
        "conv_b", true, none, [], .FocusChat⟩ ⟨"hello".data, none⟩ 3 rfl).2.2.2 1
      ⟨"conv_b", "B".data, [], 2⟩ (by decide) (by decide) ?_
    · simpa using h
    · intro j hj c' hc'
      cases j with
      | zero =>
        simp only [List.getElem?_cons_zero, Option.some.injEq] at hc'
        rw [← hc']
        decide
      | succ n => exact absurd hj (by omega)

/-- C3 counterexample: from a fresh start at Unix second 0, creating a
new conversation during the same second yields a reachable state whose
two conversations both have id conv_0 — the ids are not pairwise
distinct and no regeneration occurred. -/
theorem claim_C3_counterexample :
    Reachable (((initModel 0).Update .keyCtrlN 0).1)
      ∧ ((((initModel 0).Update .keyCtrlN 0).1.conversations.map (fun c => c.ID))
          = ["conv_0", "conv_0"])
      ∧ ¬ List.Pairwise (fun a b => a.ID ≠ b.ID)
          (((initModel 0).Update .keyCtrlN 0).1.conversations) :=
  ⟨Reachable.step _ _ _ (Reachable.init 0), by decide, by decide⟩

/-- C3 amended: GenerateConvID derives the id solely from the current
Unix second and the new-conversation handler performs no collision
check: the new conversation is appended (never overwriting an existing
one) and made active, and two creations in the same second simply
produce two conversations with the same id. -/
theorem claim_C3_amended (m : Model) (now : Nat) :
    (m.Update .keyCtrlN now).1.conversations
        = m.conversations ++ [⟨GenerateConvID now, "New Chat".data, [], now⟩]
      ∧ (m.Update .keyCtrlN now).1.currentConvID = GenerateConvID now
      ∧ ((m.Update .keyCtrlN now).1.Update .keyCtrlN now).1.conversations.map (fun c => c.ID)
          = m.conversations.map (fun c => c.ID) ++ [GenerateConvID now, GenerateConvID now] := by
  refine ⟨rfl, rfl, ?_⟩
  simp [Model.Update, NewConversation]

/-- C5 counterexample: in the reachable state where a response arrived
after switching to the freshly created conv_2, that conversation holds
exactly one message — its first — with content hello, yet its name is
still New Chat: the title was not derived from the first appended
message's content. -/
theorem claim_C5_counterexample :
    ((((((initModel 0).Update (.editInput "hi".data) 0).1.Update
            (.keyEnter none) 1).1.Update .keyCtrlN 2).1.Update
            (.response ⟨"hello".data, none⟩) 3).1.conversations[1]?).map
          (fun c => (c.Name, c.Messages))
        = some ("New Chat".data, [⟨"assistant", "hello".data, 3⟩])
      ∧ "New Chat".data ≠ truncateTitle "hello".data
      ∧ "New Chat".data ≠ "hello".data :=
  ⟨by decide, by decide, by decide⟩

/-- C5 amended: the title is derived only when a user-submitted message
is appended to a conversation that was empty, from that message's
content, cut at 30 runes to the first 27 runes plus an ellipsis; a
user append to a non-empty conversation and an assistant append never
change any name — so a conversation whose first message arrives as an
assistant response keeps its creation title. -/
theorem claim_C5_amended :
    (∀ (cs : List Conversation) (cid : String) (msg : Message) (i : Nat)
        (c c' : Conversation), cs[i]? = some c → (appendUserMsg cs cid msg)[i]? = some c' →
          c.Messages ≠ [] → c'.Name = c.Name)
      ∧ (∀ (cs : List Conversation) (cid : String) (msg : Message) (i : Nat)
          (c : Conversation), cs[i]? = some c → c.Messages = [] →
            (appendUserMsg cs cid msg)[i]? = some c
              ∨ (appendUserMsg cs cid msg)[i]?
                  = some { c with Messages := [msg], Name := truncateTitle msg.Content })
      ∧ (∀ (cs : List Conversation) (cid : String) (msg : Message) (i : Nat)
          (c c' : Conversation), cs[i]? = some c →
            (appendAssistantMsg cs cid msg)[i]? = some c' → c'.Name = c.Name)
      ∧ ∀ title : List Char,
          (title.length ≤ 30 → truncateTitle title = title)
            ∧ (title.length > 30 →
                truncateTitle title = title.take 27 ++ "...".data
                  ∧ (truncateTitle title).length = 30) := by
  refine ⟨appendUserMsg_getElem_nonempty, appendUserMsg_getElem_empty,
    appendAssistantMsg_name, ?_⟩
  intro title
  constructor
  · intro hle
    rw [truncateTitle, if_neg (Nat.not_lt.mpr hle)]
  · intro hgt
    have htr : truncateTitle title = title.take 27 ++ "...".data := by
      rw [truncateTitle, if_pos hgt]
    refine ⟨htr, ?_⟩
    rw [htr]
    simp only [List.length_append, List.length_take]
    have hmin : min 27 title.length = 27 := Nat.min_eq_left (by omega)
    rw [hmin]
    decide

/-- Witness for C5 amended: a 40-rune title truncates to 27 runes plus
the ellipsis, and a user message appended to a conversation that
already holds a message leaves its name unchanged. -/
theorem claim_C5_amended_witness :
    truncateTitle (List.replicate 40 'z') = List.replicate 27 'z' ++ "...".data
      ∧ ((appendUserMsg [⟨"conv_7", "old".data, [⟨"user", "x".data, 0⟩], 0⟩] "conv_7"
            ⟨"user", (List.replicate 40 'z'), 1⟩)[0]?).map (fun c => c.Name)
          = some "old".data := by
  constructor
  · exact ((claim_C5_amended.2.2.2 (List.replicate 40 'z')).2 (by decide)).1
  · have h := claim_C5_amended.1 [⟨"conv_7", "old".data, [⟨"user", "x".data, 0⟩], 0⟩]
      "conv_7" ⟨"user", (List.replicate 40 'z'), 1⟩ 0
      ⟨"conv_7", "old".data, [⟨"user", "x".data, 0⟩], 0⟩
      ⟨"conv_7", "old".data,
        [⟨"user", "x".data, 0⟩, ⟨"user", (List.replicate 40 'z'), 1⟩], 0⟩
      (by decide) (by decide) (by decide)
    rw [show (appendUserMsg [⟨"conv_7", "old".data, [⟨"user", "x".data, 0⟩], 0⟩] "conv_7"
        ⟨"user", (List.replicate 40 'z'), 1⟩)[0]?
        = some ⟨"conv_7", "old".data,
            [⟨"user", "x".data, 0⟩, ⟨"user", (List.replicate 40 'z'), 1⟩], 0⟩
      from by decide]
    simp

/-- C10: a buffer that is blank after trimming submits nothing — the
keystroke only falls through to the textarea and no request is
dispatched; a non-blank buffer submits exactly its trimmed content; and
in every state reachable from a fresh start, every user-role message of
every conversation is non-empty and free of surrounding whitespace. -/
theorem claim_C10_submit_trims :
    (∀ (m : Model) (sel : Option String) (now : Nat),
        m.focus = .FocusChat → m.loading = false → trimSpace m.textValue = [] →
          m.Update (.keyEnter sel) now = ({ m with textValue := m.textValue ++ ['\n'] }, none))
      ∧ (∀ (m : Model) (sel : Option String) (now : Nat),
          m.focus = .FocusChat → m.loading = false → trimSpace m.textValue ≠ [] →
            m.Update (.keyEnter sel) now
              = ({ m with
                    conversations := appendUserMsg m.conversations m.currentConvID
                      ⟨"user", trimSpace m.textValue, now⟩
                    loading := true
                    textValue := [] }, some (trimSpace m.textValue)))
      ∧ ∀ m, Reachable m → ∀ c ∈ m.conversations, ∀ msg ∈ c.Messages,
          msg.Role = "user" → msg.Content ≠ [] ∧ trimSpace msg.Content = msg.Content := by
  refine ⟨?_, ?_, ?_⟩
  · intro m sel now hfocus hload htrim
    simp only [Model.Update]
    rw [if_neg (by rw [hfocus]; intro h; cases h)]
    rw [if_neg (fun h => h.2 htrim)]
  · intro m sel now hfocus hload htrim
    simp only [Model.Update]
    rw [if_neg (by rw [hfocus]; intro h; cases h)]
    rw [if_pos ⟨hload, htrim⟩]
  · intro m hreach
    induction hreach with
    | init t =>
      intro c hc msg hmsg _
      simp only [initModel, NewConversation, List.mem_singleton] at hc
      subst hc
      cases hmsg
    | step m ev now hr ih =>
      intro c' hc' msg hmsg hrole
      cases ev with
      | keyTab =>
        have hconvs : (m.Update .keyTab now).1.conversations = m.conversations := by
          simp only [Model.Update]
          by_cases h : m.focus = .FocusSidebar <;> simp [h]
        rw [hconvs] at hc'
        exact ih c' hc' msg hmsg hrole
      | keyCtrlN =>
        have hconvs : (m.Update .keyCtrlN now).1.conversations
            = m.conversations ++ [NewConversation "New Chat".data now] := rfl
        rw [hconvs] at hc'
        rcases List.mem_append.mp hc' with h | h
        · exact ih c' h msg hmsg hrole
        · simp only [List.mem_singleton] at h
          subst h
          cases hmsg
      | editInput s =>
        have hconvs : (m.Update (.editInput s) now).1.conversations = m.conversations := by
          simp only [Model.Update]
          by_cases h : m.focus = .FocusChat <;> simp [h]
        rw [hconvs] at hc'
        exact ih c' hc' msg hmsg hrole
      | keyEnter sel =>
        by_cases hfoc : m.focus = .FocusSidebar
        · have hconvs : (m.Update (.keyEnter sel) now).1.conversations = m.conversations := by
            simp only [Model.Update, if_pos hfoc]
            cases sel <;> rfl
          rw [hconvs] at hc'
          exact ih c' hc' msg hmsg hrole
        · by_cases hguard : m.loading = false ∧ trimSpace m.textValue ≠ []
          · have hconvs : (m.Update (.keyEnter sel) now).1.conversations
                = appendUserMsg m.conversations m.currentConvID
                    ⟨"user", trimSpace m.textValue, now⟩ := by
              simp only [Model.Update, if_neg hfoc, if_pos hguard]
            rw [hconvs] at hc'
            rcases mem_appendUserMsg _ _ _ c' hc' with h | ⟨c₀, hc₀, hm⟩
            · exact ih c' h msg hmsg hrole
            · rw [hm] at hmsg
              rcases List.mem_append.mp hmsg with h | h
              · exact ih c₀ hc₀ msg h hrole
              · simp only [List.mem_singleton] at h
                subst h
                exact ⟨hguard.2, trimSpace_idem m.textValue⟩
          · have hconvs : (m.Update (.keyEnter sel) now).1.conversations
                = m.conversations := by
              simp only [Model.Update, if_neg hfoc, if_neg hguard]
            rw [hconvs] at hc'
            exact ih c' hc' msg hmsg hrole
      | response r =>
        obtain ⟨content, err⟩ := r
        cases err with
        | some e =>
          have hconvs : (m.Update (.response ⟨content, some e⟩) now).1.conversations
              = m.conversations := rfl
          rw [hconvs] at hc'
          exact ih c' hc' msg hmsg hrole
        | none =>
          have hconvs : (m.Update (.response ⟨content, none⟩) now).1.conversations
              = appendAssistantMsg m.conversations m.currentConvID
                  ⟨"assistant", content, now⟩ := rfl
          rw [hconvs] at hc'
          rcases mem_appendAssistantMsg _ _ _ c' hc' with h | ⟨c₀, hc₀, hm⟩
          · exact ih c' h msg hmsg hrole
          · rw [hm] at hmsg
            rcases List.mem_append.mp hmsg with h | h
            · exact ih c₀ hc₀ msg h hrole
            · simp only [List.mem_singleton] at h
              subst h
              simp at hrole

/-- Witness for C10: a whitespace-only buffer dispatches nothing, a
padded buffer submits its trimmed content, and the invariant holds at a
fresh start. -/
theorem claim_C10_submit_trims_witness :
    ((⟨[⟨"conv_0", "New Chat".data, [], 0⟩], "conv_0", false, none, "   ".data,
          .FocusChat⟩ : Model).Update (.keyEnter none) 1).2 = none
      ∧ ((⟨[⟨"conv_0", "New Chat".data, [], 0⟩], "conv_0", false, none, " hi ".data,
            .FocusChat⟩ : Model).Update (.keyEnter none) 1).2 = some "hi".data
      ∧ ∀ c ∈ (initModel 0).conversations, ∀ msg ∈ c.Messages,
          msg.Role = "user" → msg.Content ≠ [] ∧ trimSpace msg.Content = msg.Content := by
  refine ⟨?_, ?_, claim_C10_submit_trims.2.2 (initModel 0) (Reachable.init 0)⟩
  · rw [claim_C10_submit_trims.1
      ⟨[⟨"conv_0", "New Chat".data, [], 0⟩], "conv_0", false, none, "   ".data, .FocusChat⟩
      none 1 rfl rfl (by decide)]
  · rw [claim_C10_submit_trims.2.1
      ⟨[⟨"conv_0", "New Chat".data, [], 0⟩], "conv_0", false, none, " hi ".data, .FocusChat⟩
      none 1 rfl rfl (by decide)]
    decide

end Cog
